import Mathlib

/-!
# Verification of the SimulEval sentence-level scorer

A shallow embedding of `simuleval/scorer/scorer.py`: the sentence-level
scorer facade (`SentenceLevelScorer`, `SentenceLevelTextScorer`,
`SentenceLevelSpeechScorer`) and the `compute_score` entry point.

Python dictionaries are embedded as association lists with insertion-order
semantics (inserting an existing key updates it in place, a new key is
appended at the end), matching CPython's ordered `dict`.  Fallible Python
code (`KeyError`, `IndexError`, `sys.exit`, subprocess failures) is embedded
in the `Except String` monad.  Floats are embedded as `Rat`; `statistics.mean`
is exact over rationals, so `mean` is `sum / length`.

External collaborators (the Instance class of `instance.py`, sacrebleu,
`eval_all_latency`, the textgrid parser, the mfa forced aligner) are either
modelled from the spec's interface description or taken as parameters.
-/

deriving instance DecidableEq for Except

/-- The per-example streaming state consumed by the scorer.

Modelled from the spec: the Instance class lives in `instance.py`, which is
not part of the sources; §6 of the spec fixes its interface: `index`,
`reference`, `prediction`, `finish_prediction`, `source_length`, a `metrics`
mapping (family → metric name → value), and `summarize()` exposing `delays`
as an ordered list of `(unit, offset_ms)` pairs.  The `delays` field below
is the `summarize()["delays"]` list. -/
structure Instance where
  index : Nat
  reference : String
  prediction : String
  finish_prediction : Bool
  source_length : Rat
  delays : List (Rat × Rat)
  metrics : List (String × List (String × Rat))
deriving Repr, DecidableEq, Inhabited

/-- Python `dict[key] = value` on an insertion-ordered association list:
an existing key is updated in place, a fresh key is appended. -/
def dictInsert (d : List (Nat × Instance)) (k : Nat) (v : Instance) :
    List (Nat × Instance) :=
  if d.any (fun p => p.1 == k) then
    d.map (fun p => if p.1 == k then (p.1, v) else p)
  else d ++ [(k, v)]

/-- In-place mutation of the value stored at key `k`
(Python `d[k].method()` mutating the stored object). -/
def dictMapAt (d : List (Nat × Instance)) (k : Nat) (f : Instance → Instance) :
    List (Nat × Instance) :=
  d.map (fun p => if p.1 == k then (p.1, f p.2) else p)

/-- Append `v` to the list stored at `k` in a `defaultdict(list)`:
a fresh key is created (at the end) holding the one-element list. -/
def ddAppend {α : Type} (d : List (String × List α)) (k : String) (v : α) :
    List (String × List α) :=
  if d.any (fun p => p.1 == k) then
    d.map (fun p => if p.1 == k then (p.1, p.2 ++ [v]) else p)
  else d ++ [(k, [v])]

/-- The scorer state shared by `SentenceLevelScorer` and its subclasses:
the shard bounds and the instance store (`self.instances`). -/
structure Scorer where
  start_index : Nat
  end_index : Nat
  instances : List (Nat × Instance)
deriving Repr, DecidableEq

namespace Scorer

/-- `get_indices`: `range(self.start_index, self.end_index)`. -/
def getIndices (sc : Scorer) : List Nat :=
  List.range' sc.start_index (sc.end_index - sc.start_index)

/-- `self.instances.values()` in insertion order. -/
def values (sc : Scorer) : List Instance :=
  sc.instances.map Prod.snd

end Scorer

/-- `self.instances[i]`, raising `KeyError` when the index is absent. -/
def instE (sc : Scorer) (i : Nat) : Except String Instance :=
  match sc.instances.lookup i with
  | none => Except.error ("KeyError: " ++ toString i)
  | some v => Except.ok v

/-- Total variant of `instE` used to state theorems: the instance stored at
`i`, defaulting when absent. -/
def instD (sc : Scorer) (i : Nat) : Instance :=
  (sc.instances.lookup i).getD default

/-- `fam in instance.metrics` (membership test used by the key intersection). -/
def hasFamily (inst : Instance) (fam : String) : Bool :=
  (inst.metrics.lookup fam).isSome

/-- `instance.metrics[fam][name]` with Python `KeyError` semantics. -/
def metricVal (inst : Instance) (fam name : String) : Except String Rat :=
  match inst.metrics.lookup fam with
  | none => Except.error ("KeyError: " ++ fam)
  | some fm =>
    match fm.lookup name with
    | none => Except.error ("KeyError: " ++ name)
    | some v => Except.ok v

/-- Total variant of `metricVal` used to state theorems. -/
def metricValD (inst : Instance) (fam name : String) : Rat :=
  (((inst.metrics.lookup fam).getD []).lookup name).getD 0

/-- `statistics.mean` over rationals (exact). -/
def mean (l : List Rat) : Rat := l.sum / l.length

/-- Membership of a family in `common_keys`, the `functools.reduce`
intersection of `set(x.metrics.keys())` over all instances.  For a nonempty
store, a family is in the intersection iff every instance has it. -/
def commonHas (sc : Scorer) (fam : String) : Bool :=
  sc.values.all (fun i => hasFamily i fam)

/-- The `"latency_ca"` contribution of one iteration of the metric loop of
`get_latency_score`: guarded by membership of the family in `common_keys`. -/
def caPartOf (sc : Scorer) (metric : String) : Except String (List (String × Rat)) :=
  if commonHas sc "latency_ca" then
    match sc.values.mapM (fun i => metricVal i "latency_ca" metric) with
    | Except.error e => Except.error e
    | Except.ok ca => Except.ok [(metric ++ "_CA", mean ca)]
  else Except.ok []

/-- The `"latency_text_w_time"` contribution of one iteration of the metric
loop of `get_latency_score`: guarded by membership of the family in
`common_keys`. -/
def timePartOf (sc : Scorer) (metric : String) : Except String (List (String × Rat)) :=
  if commonHas sc "latency_text_w_time" then
    match sc.values.mapM (fun i => metricVal i "latency_text_w_time" metric) with
    | Except.error e => Except.error e
    | Except.ok t => Except.ok [(metric ++ " (Time in ms)", mean t)]
  else Except.ok []

/-- One iteration of the `for metric in ["AL", "AP", "DAL"]` loop of
`SentenceLevelScorer.get_latency_score`: the base `"latency"` family is
indexed unconditionally; the `"latency_ca"` and `"latency_text_w_time"`
families are added only when they are in `common_keys`. -/
def latRow (sc : Scorer) (metric : String) : Except String (List (String × Rat)) :=
  match sc.values.mapM (fun i => metricVal i "latency" metric) with
  | Except.error e => Except.error e
  | Except.ok base =>
    match caPartOf sc metric with
    | Except.error e => Except.error e
    | Except.ok ca =>
      match timePartOf sc metric with
      | Except.error e => Except.error e
      | Except.ok t => Except.ok ((metric, mean base) :: (ca ++ t))

/-- `SentenceLevelScorer.get_latency_score`.  An empty instance store makes
the initial `functools.reduce` raise (`TypeError`); otherwise the rows for
`AL`, `AP` and `DAL` are concatenated in loop order, the first `KeyError`
aborting the computation. -/
def getLatencyScore (sc : Scorer) : Except String (List (String × Rat)) :=
  if sc.instances.isEmpty then
    Except.error "TypeError: reduce() of empty iterable with no initial value"
  else
    match latRow sc "AL" with
    | Except.error e => Except.error e
    | Except.ok a =>
      match latRow sc "AP" with
      | Except.error e => Except.error e
      | Except.ok p =>
        match latRow sc "DAL" with
        | Except.error e => Except.error e
        | Except.ok d => Except.ok (a ++ p ++ d)

/-- `SentenceLevelTextScorer.get_translation_list`, with the observable side
effects made explicit.  `sentEval` is the external
`Instance.sentence_level_eval` (it mutates the instance in place).  The
result carries, besides the mutated scorer and the translations: the list of
`logger.warn` messages in emission order, and the list of indices on which
`sentence_level_eval` was invoked (in invocation order). -/
def getTranslationList (sentEval : Instance → Instance) (sc : Scorer) :
    Except String (Scorer × List String × List Nat × List String) :=
  match sc.getIndices.mapM (fun i => (instE sc i).map (fun v => (i, v))) with
  | Except.error e => Except.error e
  | Except.ok pairs =>
    let notFinish := (pairs.filter (fun p => !p.2.finish_prediction)).map Prod.fst
    let emptyHypo :=
      (pairs.filter (fun p => p.2.prediction.length == 0)).map (fun p => toString p.1)
    let warns1 : List String :=
      if notFinish.isEmpty then [] else
        ["Warning: these hypothesis don't have EOS in predictions",
         String.intercalate ", " (notFinish.map toString)]
    let inst2 := notFinish.foldl (fun d idx => dictMapAt d idx sentEval) sc.instances
    let warns2 : List String :=
      if emptyHypo.isEmpty then [] else
        ["Warning: these hypothesis are empty", String.intercalate ", " emptyHypo]
    let sc2 : Scorer := { sc with instances := inst2 }
    match sc2.getIndices.mapM (fun i => (instE sc2 i).map (fun v => v.prediction)) with
    | Except.error e => Except.error e
    | Except.ok translations => Except.ok (sc2, warns1 ++ warns2, notFinish, translations)

/-- `SentenceLevelScorer.get_reference_list`:
`[self.instances[i].reference for i in self.get_indices()]`. -/
def getReferenceList (sc : Scorer) : Except String (List String) :=
  sc.getIndices.mapM (fun i => (instE sc i).map (fun v => v.reference))

/-- The nested report returned by `score()`:
`{"Quality": {...}, "Latency": {...}}`. -/
structure ScoreReport where
  quality : List (String × Rat)
  latency : List (String × Rat)
deriving Repr, DecidableEq

/-- `SentenceLevelScorer.score` on the text path.  `bleuFn` is the external
corpus-level quality metric (`sacrebleu.corpus_bleu(...).score`), called once
on the full ordered translation and reference lists.  Evaluation order
follows Python: the dict literal evaluates `get_quality_score()` (which runs
`get_translation_list`, mutating unfinished instances, then
`get_reference_list`) before `get_latency_score()`. -/
def scoreText (bleuFn : List String → List String → Rat)
    (sentEval : Instance → Instance) (sc : Scorer) : Except String ScoreReport :=
  match getTranslationList sentEval sc with
  | Except.error e => Except.error e
  | Except.ok (sc2, _warns, _evaled, translations) =>
    match getReferenceList sc2 with
    | Except.error e => Except.error e
    | Except.ok refs =>
      match getLatencyScore sc2 with
      | Except.error e => Except.error e
      | Except.ok lat =>
        Except.ok { quality := [("BLEU", bleuFn translations refs)], latency := lat }

/-- Serialization of a shard to `instances.log`.

Modelled from the spec: the evaluator that writes `instances.log` is not part
of the sources; per §4.5/§6 the log holds one structured line per instance
(`to_json`), in store order, and `from_json` recovers the instance from its
line, so a log line is embedded as the `Instance` itself. -/
def writeLog (sc : Scorer) : List Instance :=
  sc.instances.map Prod.snd

/-- `SentenceLevelTextScorer.from_logdir`: each log line is parsed and stored
under `instance.index` (`instances[instance.index] = instance`, a plain dict
insertion), then `start_index = 0` and
`end_index = len(instances.keys())`. -/
def textFromLogdir (log : List Instance) : Scorer :=
  let instances := log.foldl (fun d inst => dictInsert d inst.index inst) []
  { start_index := 0, end_index := instances.length, instances := instances }

/-- One word interval of a parsed TextGrid alignment artifact
(the external `textgrid` library's `Interval`: a label and two times in
seconds). -/
structure WordInterval where
  mark : String
  minTime : Rat
  maxTime : Rat
deriving Repr, DecidableEq

/-- The inner loop of `SentenceLevelSpeechScorer.get_latency_score` over one
TextGrid: intervals with an empty `mark` are skipped; every other interval
appends `target_offset + 1000 * minTime` to `"BOW"`,
`target_offset + 1000 * maxTime` to `"EOW"` and
`target_offset + 0.5 * (maxTime + minTime) * 1000` to `"COW"` of a
`defaultdict(list)`. -/
def gridDelays (offset : Rat) (intervals : List WordInterval) :
    List (String × List Rat) :=
  intervals.foldl
    (fun d iv =>
      if iv.mark.length > 0 then
        ddAppend
          (ddAppend (ddAppend d "BOW" (offset + 1000 * iv.minTime))
            "EOW" (offset + 1000 * iv.maxTime))
          "COW" (offset + 0.5 * (iv.maxTime + iv.minTime) * 1000)
      else d)
    []

/-- `SentenceLevelSpeechScorer.prepare_alignment`: `which mfa` failing calls
`sys.exit(1)` after an error log; the `mfa align` subprocess runs with
`check=True`, so its failure raises. -/
def prepareAlignment (mfaInstalled alignOk : Bool) : Except String Unit :=
  if !mfaInstalled then
    Except.error "SystemExit: Please make sure the mfa is correctly installed."
  else if !alignOk then
    Except.error "CalledProcessError: mfa align"
  else Except.ok ()

/-- Python list indexing with `IndexError`. -/
def listGetE {α : Type} (l : List α) (i : Nat) : Except String α :=
  match l.get? i with
  | none => Except.error "IndexError: list index out of range"
  | some v => Except.ok v

/-- `self.instances[index].summarize()["delays"][0][1]`: the second component
of the first delay entry, `IndexError` when the delay list is empty. -/
def instOffset (inst : Instance) : Except String Rat :=
  match inst.delays with
  | [] => Except.error "IndexError: list index out of range"
  | d :: _ => Except.ok d.2

/-- Helper of `pysplit`: split a character list at whitespace, `acc` holding
the current (reversed) field. -/
def splitWsAux : List Char → List Char → List String
  | [], acc => [String.mk acc.reverse]
  | c :: rest, acc =>
    if c.isWhitespace then String.mk acc.reverse :: splitWsAux rest []
    else splitWsAux rest (c :: acc)

/-- Python `str.split()` with no argument: split on whitespace runs, dropping
empty fields. -/
def pysplit (s : String) : List String :=
  (splitWsAux s.data []).filter (fun w => w ≠ "")

/-- `sorted(delays.items())`: sort the association pairs by key
(insertion sort, ascending). -/
def insertSorted {α : Type} (p : Nat × α) : List (Nat × α) → List (Nat × α)
  | [] => [p]
  | q :: rest => if p.1 < q.1 then p :: q :: rest else q :: insertSorted p rest

/-- See `insertSorted`. -/
def sortByIndex {α : Type} (l : List (Nat × α)) : List (Nat × α) :=
  l.foldr insertSorted []

/-- `SentenceLevelSpeechScorer.get_latency_score`.

`evalLat` is the external `eval_all_latency(delays, source_length,
reference_word_count)` from `instance.py` (not under the sources), taken as a
parameter; `alignFiles` is the parsed content of the `align/` directory: one
`(index, intervals)` entry per `*.TextGrid` file present.  After
`prepare_alignment`, each artifact's delays are reconstructed through
`gridDelays`; instances with no artifact simply contribute no entry.  The
per-convention results are then aggregated: for each convention, each metric
key of the first result is averaged over all results of that convention. -/
def speechGetLatencyScore
    (evalLat : List Rat → Rat → Nat → List (String × Rat))
    (mfaInstalled alignOk : Bool)
    (alignFiles : List (Nat × List WordInterval)) (sc : Scorer) :
    Except String (List (String × List (String × Rat))) :=
  match prepareAlignment mfaInstalled alignOk with
  | Except.error e => Except.error e
  | Except.ok _ =>
    match alignFiles.mapM (fun f =>
        match sc.instances.lookup f.1 with
        | none => Except.error ("KeyError: " ++ toString f.1)
        | some inst =>
          match instOffset inst with
          | Except.error e => Except.error e
          | Except.ok off => Except.ok (f.1, gridDelays off f.2)) with
    | Except.error e => Except.error e
    | Except.ok delays =>
      let srcLens := sc.values.map (fun v => v.source_length)
      match (sortByIndex delays).foldlM
          (fun acc p =>
            p.2.foldlM
              (fun acc2 kv =>
                match listGetE srcLens p.1 with
                | Except.error e => Except.error e
                | Except.ok sl =>
                  match getReferenceList sc with
                  | Except.error e => Except.error e
                  | Except.ok refs =>
                    match listGetE refs p.1 with
                    | Except.error e => Except.error e
                    | Except.ok rf =>
                      Except.ok
                        (ddAppend acc2 kv.1 (evalLat kv.2 sl (pysplit rf).length)))
              acc)
          ([] : List (String × List (List (String × Rat)))) with
      | Except.error e => Except.error e
      | Except.ok results =>
        results.mapM (fun (kv : String × List (List (String × Rat))) =>
          match kv.2 with
          | [] => Except.error "IndexError: list index out of range"
          | v0 :: _ =>
            (v0.mapM (fun (kk : String × Rat) =>
                match kv.2.mapM (fun (item : List (String × Rat)) =>
                    match item.lookup kk.1 with
                    | none => (Except.error ("KeyError: " ++ kk.1) : Except String Rat)
                    | some v => Except.ok v) with
                | Except.error e => Except.error e
                | Except.ok vals => Except.ok (kk.1, mean vals))).map
              (fun row => (kv.1, row)))

/-- The two scoring pathways `compute_score` can pick. -/
inductive ScorerKind
  | speech
  | text
deriving Repr, DecidableEq

/-- The mode probe of `compute_score`:
`if (logdir / "wavs").exists()` selects the speech scorer, else the text
scorer. -/
def computeScoreKind (wavsExists : Bool) : ScorerKind :=
  if wavsExists then ScorerKind.speech else ScorerKind.text

/-- One filesystem effect of the report-writing step of `compute_score`. -/
inductive FsOp
  | openTrunc (name : String)
  | write (name : String) (content : String)
  | rename (src dst : String)
deriving Repr, DecidableEq

/-- The filesystem effects of the report-writing step of `compute_score`:
`open(logdir / "scores", "w")` creates/truncates the final file, then
`f.writelines(json.dumps(...))` writes the report into it.  There is no
temporary file and no rename. -/
def computeScoreFsTrace (report : String) : List FsOp :=
  [FsOp.openTrunc "scores", FsOp.write "scores" report]

/-- A tiny filesystem: file name → content, updated by one `FsOp`. -/
def fsStep (store : List (String × String)) : FsOp → List (String × String)
  | FsOp.openTrunc n =>
    if store.any (fun p => p.1 == n) then
      store.map (fun p => if p.1 == n then (p.1, "") else p)
    else store ++ [(n, "")]
  | FsOp.write n c =>
    if store.any (fun p => p.1 == n) then
      store.map (fun p => if p.1 == n then (p.1, p.2 ++ c) else p)
    else store ++ [(n, c)]
  | FsOp.rename src dst =>
    match store.lookup src with
    | none => store
    | some c =>
      (store.filter (fun p => p.1 ≠ src)).map (fun p => if p.1 == dst then (p.1, c) else p)
      ++ (if store.any (fun p => p.1 == dst) then [] else [(dst, c)])

/-- The content of file `n` after running a list of filesystem effects on an
initially empty filesystem. -/
def fileAfter (ops : List FsOp) (n : String) : Option String :=
  (ops.foldl fsStep []).lookup n

/-- A write of `final` to file `name` is atomic when no crash point (prefix of
the effect list) leaves `name` existing with anything but the final
content. -/
def atomicWriteTo (ops : List FsOp) (name final : String) : Prop :=
  ∀ k, k ≤ ops.length →
    fileAfter (ops.take k) name = none ∨ fileAfter (ops.take k) name = some final

/-- `s.endsWith suffix` on the underlying character lists. -/
def strEndsWith (s suffix : String) : Bool :=
  suffix.data.isSuffixOf s.data

/-- The row the metric loop of `get_latency_score` produces for one metric
when every needed lookup succeeds: the unweighted mean over the instance
store of the base family value, followed by the guarded `latency_ca` and
`latency_text_w_time` means.  Used to state theorems about
`get_latency_score`. -/
def latRowSpec (sc : Scorer) (m : String) : List (String × Rat) :=
  (m, mean (sc.values.map (fun v => metricValD v "latency" m))) ::
  ((if commonHas sc "latency_ca" then
      [(m ++ "_CA", mean (sc.values.map (fun v => metricValD v "latency_ca" m)))]
    else []) ++
   (if commonHas sc "latency_text_w_time" then
      [(m ++ " (Time in ms)",
        mean (sc.values.map (fun v => metricValD v "latency_text_w_time" m)))]
    else []))

/-! ## Concrete data used in the example scenarios -/

/-- A completed instance at index 0, first line of a duplicate-index log. -/
def dupA : Instance := ⟨0, "ref", "first", true, 1, [(1, 0)], []⟩

/-- A completed instance also at index 0, second line of a duplicate-index
log. -/
def dupB : Instance := ⟨0, "ref", "second", true, 1, [(1, 0)], []⟩

/-- An instance carrying both the `"latency"` and `"latency_ca"` families. -/
def caInstA : Instance := ⟨0, "r0", "p0", true, 1, [(1, 0)],
  [("latency", [("AL", 2), ("AP", 4), ("DAL", 6)]),
   ("latency_ca", [("AL", 1), ("AP", 1), ("DAL", 1)])]⟩

/-- An instance lacking the `"latency_ca"` family. -/
def caInstB : Instance := ⟨1, "r1", "p1", true, 1, [(1, 0)],
  [("latency", [("AL", 4), ("AP", 6), ("DAL", 8)])]⟩

/-- A two-instance shard in which only the first instance has
`"latency_ca"`. -/
def caShard : Scorer := ⟨0, 2, [(0, caInstA), (1, caInstB)]⟩

/-- An instance whose metrics carry, besides `"latency"`, an extra family
`"latency_foo"` that is not one of the two families the code knows. -/
def fooInst : Instance := ⟨0, "r", "p", true, 1, [(1, 0)],
  [("latency", [("AL", 1), ("AP", 2), ("DAL", 3)]),
   ("latency_foo", [("AL", 7), ("AP", 8), ("DAL", 9)])]⟩

/-- A one-instance shard in which every instance has `"latency_foo"`. -/
def fooShard : Scorer := ⟨0, 1, [(0, fooInst)]⟩

/-- A completed instance at index 1 of a shard with nonzero start index. -/
def shiftInst : Instance := ⟨1, "r", "p", true, 1, [(1, 0)],
  [("latency", [("AL", 1), ("AP", 1), ("DAL", 1)])]⟩

/-- A one-instance shard with `start_index = 1`. -/
def shiftShard : Scorer := ⟨1, 2, [(1, shiftInst)]⟩

/-- A completed instance at index 0. -/
def rtInst : Instance := ⟨0, "r", "p", true, 1, [(1, 0)],
  [("latency", [("AL", 1), ("AP", 1), ("DAL", 1)])]⟩

/-- A one-instance shard with `start_index = 0`. -/
def rtShard : Scorer := ⟨0, 1, [(0, rtInst)]⟩

/-- Completed text instance 0 of the three-instance scenario shard. -/
def qInst0 : Instance := ⟨0, "ref zero", "hyp zero", true, 3, [(1, 0)],
  [("latency", [("AL", 1), ("AP", 2), ("DAL", 3)])]⟩

/-- Completed text instance 1 of the three-instance scenario shard. -/
def qInst1 : Instance := ⟨1, "ref one", "hyp one", true, 4, [(1, 0)],
  [("latency", [("AL", 2), ("AP", 3), ("DAL", 4)])]⟩

/-- Completed text instance 2 of the three-instance scenario shard. -/
def qInst2 : Instance := ⟨2, "ref two", "hyp two", true, 5, [(1, 0)],
  [("latency", [("AL", 3), ("AP", 4), ("DAL", 5)])]⟩

/-- A three-instance text shard, all complete, non-empty predictions. -/
def qShard : Scorer := ⟨0, 3, [(0, qInst0), (1, qInst1), (2, qInst2)]⟩

/-- A concrete stand-in for the external corpus-level quality metric. -/
def qBleu : List String → List String → Rat := fun hs rs => hs.length + rs.length

/-- An unfinished instance (no EOS reached) at index 2. -/
def wInst2 : Instance := ⟨2, "ref two", "part", false, 5, [(1, 0)],
  [("latency", [("AL", 3), ("AP", 4), ("DAL", 5)])]⟩

/-- The scenario shard in which instance 2 has `finish_prediction = False`. -/
def wShard : Scorer := ⟨0, 3, [(0, qInst0), (1, qInst1), (2, wInst2)]⟩

/-- A concrete stand-in for `Instance.sentence_level_eval`: it marks the
instance finished and keeps the current partial prediction. -/
def wEval : Instance → Instance := fun i => { i with finish_prediction := true }

/-- A speech instance at index 0 with first-emission delay 100 ms. -/
def spInstA : Instance := ⟨0, "a b", "", true, 5, [(1, 100)], []⟩

/-- A speech instance at index 1 with first-emission delay 200 ms; it will
have no alignment artifact. -/
def spInstB : Instance := ⟨1, "c", "", true, 7, [(1, 200)], []⟩

/-- A two-instance speech shard. -/
def spShard : Scorer := ⟨0, 2, [(0, spInstA), (1, spInstB)]⟩

/-- A concrete stand-in for the external `eval_all_latency`. -/
def spEval : List Rat → Rat → Nat → List (String × Rat) :=
  fun ds sl n => [("AL", ds.sum + sl + n)]

/-- The parsed `align/` directory: one TextGrid (for instance 0 only) with a
single labelled word interval from second 1 to second 2. -/
def spFiles : List (Nat × List WordInterval) := [(0, [⟨"w", 1, 2⟩])]

/-! ## Generic lemmas about the embedding's building blocks -/

theorem ebind_ok {β γ : Type} (b : β) (k : β → Except String γ) :
    (Except.ok b >>= k : Except String γ) = k b := rfl

theorem ebind_error {β γ : Type} (e : String) (k : β → Except String γ) :
    ((Except.error e : Except String β) >>= k) = Except.error e := rfl

theorem mapM_ok_of_forall {α β : Type} {l : List α} {f : α → Except String β}
    {g : α → β} (h : ∀ a ∈ l, f a = Except.ok (g a)) :
    l.mapM f = Except.ok (l.map g) := by
  induction l with
  | nil => rfl
  | cons a t ih =>
    rw [List.mapM_cons, h a (List.mem_cons_self a t),
      ih (fun x hx => h x (List.mem_cons_of_mem a hx))]
    rfl

theorem mapM_ok_mem {α β : Type} {l : List α} {f : α → Except String β}
    {out : List β} (h : l.mapM f = Except.ok out) :
    ∀ a ∈ l, ∃ b, f a = Except.ok b := by
  induction l generalizing out with
  | nil => intro a ha; cases ha
  | cons x t ih =>
    intro a ha
    rw [List.mapM_cons] at h
    cases hfx : f x with
    | error e => rw [hfx, ebind_error] at h; cases h
    | ok b =>
      rw [hfx, ebind_ok] at h
      cases hmt : t.mapM f with
      | error e => rw [hmt, ebind_error] at h; cases h
      | ok bs =>
        rcases List.mem_cons.mp ha with rfl | hat
        · exact ⟨b, hfx⟩
        · exact ih hmt a hat

theorem lookup_cons_self {α β : Type} [BEq α] [LawfulBEq α] (k : α) (v : β)
    (t : List (α × β)) : List.lookup k ((k, v) :: t) = some v := by
  simp [List.lookup]

theorem lookup_cons_ne {α β : Type} [BEq α] {k a : α} (h : (k == a) = false)
    (v : β) (t : List (α × β)) :
    List.lookup k ((a, v) :: t) = List.lookup k t := by
  simp [List.lookup, h]

theorem lookup_append_left {α β : Type} [BEq α] {l₁ : List (α × β)} {k : α}
    {v : β} (h : l₁.lookup k = some v) (l₂ : List (α × β)) :
    (l₁ ++ l₂).lookup k = some v := by
  induction l₁ with
  | nil => cases h
  | cons p t ih =>
    cases hk : (k == p.1) with
    | true =>
      rw [show p = (p.1, p.2) from rfl] at h ⊢
      rw [List.cons_append]
      simp only [List.lookup, hk] at h ⊢
      exact h
    | false =>
      rw [show p = (p.1, p.2) from rfl] at h ⊢
      rw [List.cons_append]
      rw [lookup_cons_ne hk] at h ⊢
      exact ih h

theorem lookup_append_right {α β : Type} [BEq α] {l₁ : List (α × β)} {k : α}
    (h : l₁.lookup k = none) (l₂ : List (α × β)) :
    (l₁ ++ l₂).lookup k = l₂.lookup k := by
  induction l₁ with
  | nil => rfl
  | cons p t ih =>
    cases hk : (k == p.1) with
    | true =>
      rw [show p = (p.1, p.2) from rfl] at h
      simp only [List.lookup, hk] at h
      cases h
    | false =>
      rw [show p = (p.1, p.2) from rfl] at h ⊢
      rw [List.cons_append, lookup_cons_ne hk] at *
      exact ih h

theorem not_mem_keys_lookup {α β : Type} [BEq α] [LawfulBEq α]
    {l : List (α × β)} {k : α} (h : k ∉ l.map Prod.fst) :
    l.lookup k = none := by
  induction l with
  | nil => rfl
  | cons p t ih =>
    have hne : (k == p.1) = false := by
      apply beq_eq_false_iff_ne.mpr
      intro hkp
      exact h (by simp [hkp])
    rw [show p = (p.1, p.2) from rfl, lookup_cons_ne hne]
    exact ih (fun hm => h (List.mem_cons_of_mem _ hm))

theorem map_congr_mem {α β : Type} {l : List α} {f g : α → β}
    (h : ∀ a ∈ l, f a = g a) : l.map f = l.map g := by
  induction l with
  | nil => rfl
  | cons a t ih =>
    simp only [List.map_cons, h a (List.mem_cons_self a t)]
    rw [ih (fun x hx => h x (List.mem_cons_of_mem a hx))]

theorem filter_map_comm {α β : Type} (l : List α) (f : α → β) (p : β → Bool) :
    (l.map f).filter p = (l.filter (fun a => p (f a))).map f := by
  induction l with
  | nil => rfl
  | cons a t ih =>
    simp only [List.map_cons, List.filter_cons]
    cases hp : p (f a) <;> simp [hp, ih]

theorem dictInsert_fresh {d : List (Nat × Instance)} {k : Nat}
    (h : k ∉ d.map Prod.fst) (v : Instance) :
    dictInsert d k v = d ++ [(k, v)] := by
  unfold dictInsert
  have hany : d.any (fun p => p.1 == k) = false := by
    rw [List.any_eq_false]
    intro p hp hbeq
    exact h (by
      have : p.1 = k := by simpa using hbeq
      simpa [this.symm] using List.mem_map_of_mem Prod.fst hp)
  rw [hany]
  simp

theorem lookup_map_update {d : List (Nat × Instance)} {k : Nat}
    (h : d.any (fun p => p.1 == k) = true) (v : Instance) :
    (d.map (fun p => if p.1 == k then (p.1, v) else p)).lookup k = some v := by
  induction d with
  | nil => cases h
  | cons p t ih =>
    cases hk : (p.1 == k) with
    | true =>
      have hpk : p.1 = k := by simpa using hk
      simp only [List.map_cons, hk, if_true]
      rw [hpk, lookup_cons_self]
    | false =>
      have ht : t.any (fun p => p.1 == k) = true := by
        rcases List.any_eq_true.mp h with ⟨x, hx, hbx⟩
        rcases List.mem_cons.mp hx with rfl | hxt
        · rw [hk] at hbx; cases hbx
        · exact List.any_eq_true.mpr ⟨x, hxt, hbx⟩
      have hkp : (k == p.1) = false := by
        have := beq_eq_false_iff_ne.mp hk
        exact beq_eq_false_iff_ne.mpr (Ne.symm this)
      simp only [List.map_cons, hk, Bool.false_eq_true, if_false]
      rw [show p = (p.1, p.2) from rfl, lookup_cons_ne hkp]
      exact ih ht

theorem lookup_dictInsert_self (d : List (Nat × Instance)) (k : Nat)
    (v : Instance) : (dictInsert d k v).lookup k = some v := by
  unfold dictInsert
  cases hany : d.any (fun p => p.1 == k) with
  | true =>
    rw [if_pos rfl] at *
    exact lookup_map_update hany v
  | false =>
    simp only [Bool.false_eq_true, if_false]
    have hno : k ∉ d.map Prod.fst := by
      intro hmem
      rcases List.mem_map.mp hmem with ⟨p, hp, hpk⟩
      have : p.1 == k := by simp [hpk]
      have := List.any_eq_false.mp hany p hp
      simp_all
    rw [lookup_append_right (not_mem_keys_lookup hno), lookup_cons_self]

theorem lookup_dictMapAt_self (d : List (Nat × Instance)) (k : Nat)
    (f : Instance → Instance) :
    (dictMapAt d k f).lookup k = (d.lookup k).map f := by
  induction d with
  | nil => rfl
  | cons p t ih =>
    unfold dictMapAt at *
    cases hk : (p.1 == k) with
    | true =>
      have hpk : p.1 = k := by simpa using hk
      simp only [List.map_cons, hk, if_true]
      rw [hpk, lookup_cons_self, show p = (p.1, p.2) from rfl, hpk,
        lookup_cons_self]
      rfl
    | false =>
      have hkp : (k == p.1) = false := by
        exact beq_eq_false_iff_ne.mpr (Ne.symm (beq_eq_false_iff_ne.mp hk))
      simp only [List.map_cons, hk, Bool.false_eq_true, if_false]
      rw [show p = (p.1, p.2) from rfl, lookup_cons_ne hkp, lookup_cons_ne hkp]
      exact ih

theorem lookup_dictMapAt_ne (d : List (Nat × Instance)) {i k : Nat}
    (h : (i == k) = false) (f : Instance → Instance) :
    (dictMapAt d k f).lookup i = d.lookup i := by
  induction d with
  | nil => rfl
  | cons p t ih =>
    unfold dictMapAt at *
    cases hk : (p.1 == k) with
    | true =>
      have hpk : p.1 = k := by simpa using hk
      have hip : (i == p.1) = false := by rw [hpk]; exact h
      simp only [List.map_cons, hk, if_true]
      rw [lookup_cons_ne hip, show p = (p.1, p.2) from rfl,
        lookup_cons_ne hip]
      exact ih
    | false =>
      simp only [List.map_cons, hk, Bool.false_eq_true, if_false]
      cases hip : (i == p.1) with
      | true =>
        have : i = p.1 := by simpa using hip
        rw [show p = (p.1, p.2) from rfl]
        simp only [List.lookup, hip]
      | false =>
        rw [show p = (p.1, p.2) from rfl, lookup_cons_ne hip,
          lookup_cons_ne hip]
        exact ih

theorem mapM_error_of_mem {α β : Type} {l : List α} {f : α → Except String β}
    {a : α} (ha : a ∈ l) (hf : ∀ b, f a ≠ Except.ok b) :
    ∃ e, l.mapM f = Except.error e := by
  cases hm : l.mapM f with
  | error e => exact ⟨e, rfl⟩
  | ok out =>
    rcases mapM_ok_mem hm a ha with ⟨b, hb⟩
    exact absurd hb (hf b)

theorem lookup_foldl_dictMapAt (L : List Nat) (f : Instance → Instance) :
    ∀ (d : List (Nat × Instance)) (i : Nat), L.Nodup →
      (L.foldl (fun d j => dictMapAt d j f) d).lookup i =
        if i ∈ L then (d.lookup i).map f else d.lookup i := by
  induction L with
  | nil => intro d i _; simp
  | cons j t ih =>
    intro d i hnd
    have hndt : t.Nodup := (List.nodup_cons.mp hnd).2
    have hjt : j ∉ t := (List.nodup_cons.mp hnd).1
    rw [List.foldl_cons, ih (dictMapAt d j f) i hndt]
    by_cases hij : i = j
    · subst hij
      have : i ∉ t := hjt
      rw [if_neg this, if_pos (List.mem_cons_self i t)]
      exact lookup_dictMapAt_self d i f
    · have hbeq : (i == j) = false := beq_eq_false_iff_ne.mpr hij
      rw [lookup_dictMapAt_ne d hbeq f]
      by_cases hit : i ∈ t
      · rw [if_pos hit, if_pos (List.mem_cons_of_mem j hit)]
      · rw [if_neg hit, if_neg (by
          intro hmem
          rcases List.mem_cons.mp hmem with rfl | h2
          · exact hij rfl
          · exact hit h2)]

/-! ## Facts about the latency aggregation rows -/

theorem caPartOf_of_not_common {sc : Scorer} {m : String}
    (h : commonHas sc "latency_ca" = false) : caPartOf sc m = Except.ok [] := by
  unfold caPartOf
  rw [h]
  simp

theorem timePartOf_of_not_common {sc : Scorer} {m : String}
    (h : commonHas sc "latency_text_w_time" = false) :
    timePartOf sc m = Except.ok [] := by
  unfold timePartOf
  rw [h]
  simp

theorem caPartOf_keys {sc : Scorer} {m : String} {ca : List (String × Rat)}
    (h : caPartOf sc m = Except.ok ca) :
    ca = [] ∨ ∃ x, ca = [(m ++ "_CA", x)] := by
  unfold caPartOf at h
  by_cases hc : commonHas sc "latency_ca"
  · rw [if_pos hc] at h
    cases hmm : sc.values.mapM (fun i => metricVal i "latency_ca" m) with
    | error e => rw [hmm] at h; cases h
    | ok v =>
      rw [hmm] at h
      cases h
      exact Or.inr ⟨mean v, rfl⟩
  · rw [if_neg hc] at h
    cases h
    exact Or.inl rfl

theorem timePartOf_keys {sc : Scorer} {m : String} {t : List (String × Rat)}
    (h : timePartOf sc m = Except.ok t) :
    t = [] ∨ ∃ x, t = [(m ++ " (Time in ms)", x)] := by
  unfold timePartOf at h
  by_cases hc : commonHas sc "latency_text_w_time"
  · rw [if_pos hc] at h
    cases hmm : sc.values.mapM (fun i => metricVal i "latency_text_w_time" m) with
    | error e => rw [hmm] at h; cases h
    | ok v =>
      rw [hmm] at h
      cases h
      exact Or.inr ⟨mean v, rfl⟩
  · rw [if_neg hc] at h
    cases h
    exact Or.inl rfl

theorem latRow_keys {sc : Scorer} {m : String} {row : List (String × Rat)}
    (h : latRow sc m = Except.ok row) :
    ∀ k ∈ row.map Prod.fst,
      k = m ∨ k = m ++ "_CA" ∨ k = m ++ " (Time in ms)" := by
  unfold latRow at h
  cases h1 : sc.values.mapM (fun i => metricVal i "latency" m) with
  | error e => rw [h1] at h; cases h
  | ok base =>
    rw [h1] at h
    cases h2 : caPartOf sc m with
    | error e => rw [h2] at h; cases h
    | ok ca =>
      rw [h2] at h
      cases h3 : timePartOf sc m with
      | error e => rw [h3] at h; cases h
      | ok t =>
        rw [h3] at h
        cases h
        intro k hk
        rcases List.mem_map.mp hk with ⟨p, hp, rfl⟩
        rcases List.mem_cons.mp hp with rfl | hp2
        · exact Or.inl rfl
        rcases List.mem_append.mp hp2 with hca | hti
        · rcases caPartOf_keys h2 with rfl | ⟨x, rfl⟩
          · cases hca
          · rcases List.mem_singleton.mp hca with rfl
            exact Or.inr (Or.inl rfl)
        · rcases timePartOf_keys h3 with rfl | ⟨x, rfl⟩
          · cases hti
          · rcases List.mem_singleton.mp hti with rfl
            exact Or.inr (Or.inr rfl)

theorem latRow_keys_no_ca {sc : Scorer} {m : String} {row : List (String × Rat)}
    (hca : commonHas sc "latency_ca" = false) (h : latRow sc m = Except.ok row) :
    ∀ k ∈ row.map Prod.fst, k = m ∨ k = m ++ " (Time in ms)" := by
  unfold latRow at h
  cases h1 : sc.values.mapM (fun i => metricVal i "latency" m) with
  | error e => rw [h1] at h; cases h
  | ok base =>
    rw [h1, caPartOf_of_not_common hca] at h
    cases h3 : timePartOf sc m with
    | error e => rw [h3] at h; cases h
    | ok t =>
      rw [h3] at h
      cases h
      intro k hk
      rcases List.mem_map.mp hk with ⟨p, hp, rfl⟩
      rcases List.mem_cons.mp hp with rfl | hp2
      · exact Or.inl rfl
      rcases List.mem_append.mp hp2 with hca2 | hti
      · cases hca2
      · rcases timePartOf_keys h3 with rfl | ⟨x, rfl⟩
        · cases hti
        · rcases List.mem_singleton.mp hti with rfl
          exact Or.inr rfl

theorem getLatencyScore_ok_parts {sc : Scorer} {r : List (String × Rat)}
    (h : getLatencyScore sc = Except.ok r) :
    ∃ a p d, latRow sc "AL" = Except.ok a ∧ latRow sc "AP" = Except.ok p ∧
      latRow sc "DAL" = Except.ok d ∧ r = a ++ p ++ d := by
  unfold getLatencyScore at h
  by_cases hemp : sc.instances.isEmpty
  · rw [if_pos hemp] at h; cases h
  · rw [if_neg hemp] at h
    cases h1 : latRow sc "AL" with
    | error e => rw [h1] at h; cases h
    | ok a =>
      rw [h1] at h
      cases h2 : latRow sc "AP" with
      | error e => rw [h2] at h; cases h
      | ok p =>
        rw [h2] at h
        cases h3 : latRow sc "DAL" with
        | error e => rw [h3] at h; cases h
        | ok d =>
          rw [h3] at h
          cases h
          exact ⟨a, p, d, rfl, rfl, rfl, rfl⟩

/-! ## Claims C10, C3, C8: the text-path latency aggregation -/

/-- C10: in the text-path `get_latency_score` the intersection of metric
families guards only `"latency_ca"` and `"latency_text_w_time"`; the base
`"latency"` family is indexed unconditionally for AL/AP/DAL, so for every
shard in which some instance lacks the `"latency"` family, or which is
empty, the computation raises an exception instead of skipping the family or
returning a report. -/
theorem C10_base_family_unguarded (sc : Scorer)
    (h : sc.instances = [] ∨ ∃ inst ∈ sc.values, hasFamily inst "latency" = false) :
    ∃ e, getLatencyScore sc = Except.error e := by
  by_cases hemp : sc.instances.isEmpty
  · exact ⟨_, by unfold getLatencyScore; rw [if_pos hemp]⟩
  · rcases h with hemp2 | ⟨inst, hmem, hfam⟩
    · exact absurd (by simp [hemp2]) hemp
    · have hmv : ∀ b, metricVal inst "latency" "AL" ≠ Except.ok b := by
        intro b hb
        unfold metricVal at hb
        cases hl : inst.metrics.lookup "latency" with
        | none => rw [hl] at hb; cases hb
        | some fm =>
          unfold hasFamily at hfam
          rw [hl] at hfam
          simp at hfam
      rcases mapM_error_of_mem (f := fun i => metricVal i "latency" "AL")
        hmem hmv with ⟨e, he⟩
      have hrow : latRow sc "AL" = Except.error e := by
        unfold latRow; rw [he]
      exact ⟨e, by unfold getLatencyScore; rw [if_neg hemp, hrow]⟩

/-- Witness for `C10_base_family_unguarded`: the empty shard. -/
theorem C10_witness :
    ∃ e, getLatencyScore { start_index := 0, end_index := 0, instances := [] } =
      Except.error e :=
  C10_base_family_unguarded
    { start_index := 0, end_index := 0, instances := [] } (Or.inl rfl)

/-- C3: the text-path latency aggregation includes a metric family only if it
is present in every instance of the shard: if at least one instance lacks the
`"latency_ca"` family, the report returned by `get_latency_score` contains no
key ending in `"_CA"`, even when every other instance has that family. -/
theorem C3_ca_requires_all_instances (sc : Scorer) (inst : Instance)
    (hmem : inst ∈ sc.values) (hca : hasFamily inst "latency_ca" = false)
    (r : List (String × Rat)) (hok : getLatencyScore sc = Except.ok r) :
    (r.map Prod.fst).all (fun k => !(strEndsWith k "_CA")) = true := by
  have hcommon : commonHas sc "latency_ca" = false := by
    cases hc : commonHas sc "latency_ca" with
    | false => rfl
    | true =>
      unfold commonHas at hc
      exact absurd (List.all_eq_true.mp hc inst hmem) (by simp [hca])
  rcases getLatencyScore_ok_parts hok with ⟨a, p, d, ha, hp, hd, rfl⟩
  rw [List.all_eq_true]
  intro k hk
  rw [List.map_append, List.map_append] at hk
  rcases List.mem_append.mp hk with hk2 | hkd
  · rcases List.mem_append.mp hk2 with hka | hkp
    · rcases latRow_keys_no_ca hcommon ha k hka with rfl | rfl <;> decide
    · rcases latRow_keys_no_ca hcommon hp k hkp with rfl | rfl <;> decide
  · rcases latRow_keys_no_ca hcommon hd k hkd with rfl | rfl <;> decide

/-- C8 (amended): beyond the base `"latency"` family, `get_latency_score`
reports additional metric families only for `"latency_ca"` (suffix `_CA`) and
`"latency_text_w_time"` (suffix ` (Time in ms)`); any other family, even when
present in the metrics mapping of every instance of the shard, contributes no
key to the report: every key of a successful report is one of the nine fixed
keys. -/
theorem C8_only_two_extra_families (sc : Scorer) (r : List (String × Rat))
    (hok : getLatencyScore sc = Except.ok r) :
    (r.map Prod.fst).all (fun k =>
      (["AL", "AL_CA", "AL (Time in ms)", "AP", "AP_CA", "AP (Time in ms)",
        "DAL", "DAL_CA", "DAL (Time in ms)"] : List String).contains k) = true := by
  rcases getLatencyScore_ok_parts hok with ⟨a, p, d, ha, hp, hd, rfl⟩
  rw [List.all_eq_true]
  intro k hk
  rw [List.map_append, List.map_append] at hk
  rcases List.mem_append.mp hk with hk2 | hkd
  · rcases List.mem_append.mp hk2 with hka | hkp
    · rcases latRow_keys ha k hka with rfl | rfl | rfl <;> decide
    · rcases latRow_keys hp k hkp with rfl | rfl | rfl <;> decide
  · rcases latRow_keys hd k hkd with rfl | rfl | rfl <;> decide

/-! ## Claim C2: duplicate indices in a replayed log -/

/-- C2 (amended): `from_logdir` silently resolves duplicate instance indices
by overwrite instead of raising: for every merged log, the instance stored at
an index is the one from the last log line carrying that index (the later
line wins), and a scorer is always returned. -/
theorem C2_duplicate_overwrite (log : List Instance) (j : Instance) :
    (textFromLogdir (log ++ [j])).instances.lookup j.index = some j := by
  show ((log ++ [j]).foldl (fun d inst => dictInsert d inst.index inst)
      []).lookup j.index = some j
  rw [List.foldl_append]
  exact lookup_dictInsert_self _ _ _

/-! ## Claim C9: compute_score mode probe and score-file write -/

/-- C9 (amended): `compute_score` selects the speech pathway exactly when the
`wavs` directory exists inside the log directory and the text pathway
otherwise; the final report, however, is written by opening the `scores` file
inside the log directory directly and writing into it — there is no
write-then-rename, and the write is not atomic: right after the open, an
empty `scores` file is already visible with content differing from the final
report. -/
theorem C9_probe_and_direct_write (report : String) (h : report ≠ "") :
    computeScoreKind true = ScorerKind.speech ∧
    computeScoreKind false = ScorerKind.text ∧
    computeScoreFsTrace report =
      [FsOp.openTrunc "scores", FsOp.write "scores" report] ∧
    fileAfter (computeScoreFsTrace report) "scores" = some report ∧
    ¬ atomicWriteTo (computeScoreFsTrace report) "scores" report := by
  refine ⟨rfl, rfl, rfl, ?_, ?_⟩
  · show ([FsOp.openTrunc "scores", FsOp.write "scores" report].foldl fsStep
        []).lookup "scores" = some report
    simp [fsStep, List.lookup]
  · intro hat
    have h1 := hat 1 (by simp [computeScoreFsTrace])
    have h2 : fileAfter ((computeScoreFsTrace report).take 1) "scores" =
        some "" := by
      show ([FsOp.openTrunc "scores"].foldl fsStep []).lookup "scores" = some ""
      simp [fsStep, List.lookup]
    rw [h2] at h1
    rcases h1 with h1 | h1
    · cases h1
    · injection h1 with hh
      exact h hh.symm

/-- Witness for `C9_probe_and_direct_write` at the report `"x"`. -/
theorem C9_witness :
    computeScoreKind true = ScorerKind.speech ∧
    computeScoreKind false = ScorerKind.text ∧
    computeScoreFsTrace "x" = [FsOp.openTrunc "scores", FsOp.write "scores" "x"] ∧
    fileAfter (computeScoreFsTrace "x") "scores" = some "x" ∧
    ¬ atomicWriteTo (computeScoreFsTrace "x") "scores" "x" :=
  C9_probe_and_direct_write "x" (by decide)

/-- C9 counterexample: the claim's atomicity half fails on the code.  On the
concrete report `"x"`, the effect trace of the report-writing step of
`compute_score` is not an atomic write: the crash point after
`open(logdir / "scores", "w")` leaves a visible `scores` file whose content
(empty) is neither absent nor the final report. -/
theorem C9_counterexample :
    ¬ atomicWriteTo (computeScoreFsTrace "x") "scores" "x" := by
  intro hat
  have h1 := hat 1 (by decide)
  have h2 : fileAfter ((computeScoreFsTrace "x").take 1) "scores" = some "" := by
    decide
  rw [h2] at h1
  rcases h1 with h1 | h1
  · cases h1
  · injection h1 with hh
    exact absurd hh (by decide)

/-! ## Claim C4: speech latency with a missing alignment artifact -/

section
set_option allowUnsafeReducibility true
attribute [local semireducible] Rat.add Rat.mul Rat.inv Rat.sub Rat.div Rat.ofScientific

/-- C4 (amended): the speech `get_latency_score` aborts early and loudly
exactly when the aligner toolchain is unavailable (`which mfa` fails) or the
alignment subprocess fails; an instance lacking an alignment artifact is
instead silently skipped — the latency report is computed from the instances
whose artifacts exist, as the concrete two-instance shard with an artifact
only for instance 0 shows.  Quality scoring is a separate computation and is
not involved in the latency pathway. -/
theorem C4_toolchain_abort_artifact_skip :
    (∀ (evalLat : List Rat → Rat → Nat → List (String × Rat)) (alignOk : Bool)
       (files : List (Nat × List WordInterval)) (sc : Scorer),
       speechGetLatencyScore evalLat false alignOk files sc =
         Except.error
           "SystemExit: Please make sure the mfa is correctly installed.") ∧
    (∀ (evalLat : List Rat → Rat → Nat → List (String × Rat))
       (files : List (Nat × List WordInterval)) (sc : Scorer),
       speechGetLatencyScore evalLat true false files sc =
         Except.error "CalledProcessError: mfa align") ∧
    speechGetLatencyScore spEval true true spFiles spShard =
      Except.ok [("BOW", [("AL", 1107)]), ("EOW", [("AL", 2107)]),
        ("COW", [("AL", 1607)])] := by
  refine ⟨fun e b f s => rfl, fun e f s => rfl, by decide⟩

/-- C4 counterexample: the claim as stated is false on the code.  In the
concrete two-instance speech shard in which instance 1 lacks an alignment
artifact, with the aligner toolchain available, the speech-latency
computation does not abort: it returns a latency report, computed from
instance 0 alone. -/
theorem C4_counterexample :
    speechGetLatencyScore spEval true true spFiles spShard =
      Except.ok [("BOW", [("AL", 1107)]), ("EOW", [("AL", 2107)]),
        ("COW", [("AL", 1607)])] := by
  decide

end

/-! ## Concrete counterexamples and witnesses for the latency and replay claims -/

section
set_option allowUnsafeReducibility true
attribute [local semireducible] Rat.add Rat.mul Rat.inv Rat.sub Rat.div Rat.ofScientific

/-- C2 counterexample: the claim is false on the code.  On the concrete log
whose two lines both carry index 0, replay does not raise any duplicate-index
error: `from_logdir` returns a fully formed scorer whose store holds one
instance — the one from the later line, which silently overwrote the earlier
one — and the result is identical to replaying a log without the first line
at all. -/
theorem C2_counterexample :
    textFromLogdir [dupA, dupB] =
      { start_index := 0, end_index := 1, instances := [(0, dupB)] } ∧
    textFromLogdir [dupA, dupB] = textFromLogdir [dupB] := by
  exact ⟨by decide, by decide⟩

/-- Witness for `C3_ca_requires_all_instances`: the two-instance shard in
which only instance 0 has `"latency_ca"`; the report holds exactly the keys
`AL`, `AP`, `DAL` and none ends in `_CA`. -/
theorem C3_witness :
    (([("AL", (3 : Rat)), ("AP", 5), ("DAL", 7)].map Prod.fst).all
      (fun k => !(strEndsWith k "_CA"))) = true :=
  C3_ca_requires_all_instances caShard caInstB (by decide) (by decide)
    [("AL", 3), ("AP", 5), ("DAL", 7)] (by decide)

/-- C8 counterexample: the claim is false on the code.  On the concrete
one-instance shard whose every instance carries the additional metric family
`"latency_foo"`, the report of `get_latency_score` consists of exactly the
keys `AL`, `AP` and `DAL`: no key reporting the `"latency_foo"` family is
present, although the family is in the metrics mapping of all instances. -/
theorem C8_counterexample :
    getLatencyScore fooShard = Except.ok [("AL", 1), ("AP", 2), ("DAL", 3)] := by
  decide

/-- Witness for `C8_only_two_extra_families` at the same one-instance
shard. -/
theorem C8_witness :
    (([("AL", (1 : Rat)), ("AP", 2), ("DAL", 3)].map Prod.fst).all (fun k =>
      (["AL", "AL_CA", "AL (Time in ms)", "AP", "AP_CA", "AP (Time in ms)",
        "DAL", "DAL_CA", "DAL (Time in ms)"] : List String).contains k)) = true :=
  C8_only_two_extra_families fooShard [("AL", 1), ("AP", 2), ("DAL", 3)]
    (by decide)

end

/-! ## Claim C6: reconstruction of word delays from alignment intervals -/

theorem string_length_pos_iff (s : String) : (0 < s.length) ↔ s ≠ "" := by
  constructor
  · intro h heq
    subst heq
    exact absurd h (by decide)
  · intro h
    cases s with
    | mk data =>
      cases data with
      | nil => exact absurd rfl h
      | cons c cs => exact Nat.succ_pos cs.length

theorem ddAppend3 (b e c : List Rat) (x y z : Rat) :
    ddAppend (ddAppend (ddAppend [("BOW", b), ("EOW", e), ("COW", c)] "BOW" x)
      "EOW" y) "COW" z = [("BOW", b ++ [x]), ("EOW", e ++ [y]), ("COW", c ++ [z])] := rfl

theorem ddAppend3_nil (x y z : Rat) :
    ddAppend (ddAppend (ddAppend ([] : List (String × List Rat)) "BOW" x)
      "EOW" y) "COW" z = [("BOW", [x]), ("EOW", [y]), ("COW", [z])] := rfl

theorem gridDelays_step_full (offset : Rat) (ivs : List WordInterval)
    (b e c : List Rat) :
    ivs.foldl
      (fun d iv =>
        if iv.mark.length > 0 then
          ddAppend
            (ddAppend (ddAppend d "BOW" (offset + 1000 * iv.minTime))
              "EOW" (offset + 1000 * iv.maxTime))
            "COW" (offset + 0.5 * (iv.maxTime + iv.minTime) * 1000)
        else d)
      [("BOW", b), ("EOW", e), ("COW", c)] =
    [("BOW", b ++ (ivs.filter (fun iv => iv.mark ≠ "")).map
        (fun iv => offset + 1000 * iv.minTime)),
     ("EOW", e ++ (ivs.filter (fun iv => iv.mark ≠ "")).map
        (fun iv => offset + 1000 * iv.maxTime)),
     ("COW", c ++ (ivs.filter (fun iv => iv.mark ≠ "")).map
        (fun iv => offset + 0.5 * (iv.maxTime + iv.minTime) * 1000))] := by
  induction ivs generalizing b e c with
  | nil => simp
  | cons iv t ih =>
    rw [List.foldl_cons, List.filter_cons]
    by_cases hm : iv.mark = ""
    · have hlen : ¬ (iv.mark.length > 0) := fun hgt =>
        (string_length_pos_iff iv.mark).mp hgt hm
      rw [if_neg hlen, ih]
      simp [hm]
    · have hlen : iv.mark.length > 0 := (string_length_pos_iff iv.mark).mpr hm
      rw [if_pos hlen, ddAppend3, ih]
      simp [hm]

/-- C6: for every alignment artifact, the realignment loop discards exactly
the intervals whose label is empty, and for every remaining interval derives
the three boundary-convention delay values begin-of-word =
`offset + 1000 * minTime`, end-of-word = `offset + 1000 * maxTime` and
center-of-word = `offset + 500 * (minTime + maxTime)` (the code computes the
latter as `offset + 0.5 * (maxTime + minTime) * 1000`, the same rational),
collecting each convention as a separate ordered sequence keyed `"BOW"`,
`"EOW"`, `"COW"`; when every interval is discarded the delay mapping for the
instance stays empty. -/
theorem C6_interval_delay_derivation (offset : Rat) (ivs : List WordInterval) :
    gridDelays offset ivs =
      (if (ivs.filter (fun iv => iv.mark ≠ "")).isEmpty then [] else
        [("BOW", (ivs.filter (fun iv => iv.mark ≠ "")).map
            (fun iv => offset + 1000 * iv.minTime)),
         ("EOW", (ivs.filter (fun iv => iv.mark ≠ "")).map
            (fun iv => offset + 1000 * iv.maxTime)),
         ("COW", (ivs.filter (fun iv => iv.mark ≠ "")).map
            (fun iv => offset + 500 * (iv.minTime + iv.maxTime)))]) := by
  have hcow : ∀ (l : List WordInterval),
      l.map (fun iv => offset + 0.5 * (iv.maxTime + iv.minTime) * 1000) =
        l.map (fun iv => offset + 500 * (iv.minTime + iv.maxTime)) :=
    fun l => List.map_congr_left (fun a _ => by ring)
  induction ivs with
  | nil => rfl
  | cons iv t ih =>
    unfold gridDelays at *
    rw [List.foldl_cons]
    by_cases hm : iv.mark = ""
    · have hlen : ¬ (iv.mark.length > 0) := fun hgt =>
        (string_length_pos_iff iv.mark).mp hgt hm
      rw [if_neg hlen, ih, List.filter_cons]
      simp [hm]
    · have hlen : iv.mark.length > 0 := (string_length_pos_iff iv.mark).mpr hm
      have hz : offset + 0.5 * (iv.maxTime + iv.minTime) * 1000 =
          offset + 500 * (iv.minTime + iv.maxTime) := by ring
      rw [if_pos hlen, ddAppend3_nil, gridDelays_step_full, List.filter_cons]
      simp [hm, hz, ← hcow]

/-! ## Closed form of the translation-list aggregation -/

theorem instE_ok_of_isSome {sc : Scorer} {i : Nat}
    (h : (sc.instances.lookup i).isSome) : instE sc i = Except.ok (instD sc i) := by
  unfold instE instD
  cases hl : sc.instances.lookup i with
  | none => rw [hl] at h; cases h
  | some v => rfl

theorem mapM_pairs_ok (sc : Scorer)
    (hcov : ∀ i ∈ sc.getIndices, (sc.instances.lookup i).isSome) :
    sc.getIndices.mapM (fun i => (instE sc i).map (fun v => (i, v))) =
      Except.ok (sc.getIndices.map (fun i => (i, instD sc i))) := by
  apply mapM_ok_of_forall
  intro i hi
  rw [instE_ok_of_isSome (hcov i hi)]
  rfl

theorem pairs_filter_fst (l : List Nat) (g : Nat → Instance) (p : Instance → Bool) :
    ((l.map (fun i => (i, g i))).filter (fun q => p q.2)).map Prod.fst =
      l.filter (fun i => p (g i)) := by
  rw [filter_map_comm, List.map_map]
  simp only [Function.comp]
  have hid : List.map (Prod.fst ∘ fun i => (i, g i))
      (List.filter (fun a => p (g a)) l) =
      List.map id (List.filter (fun a => p (g a)) l) :=
    List.map_congr_left (fun a _ => rfl)
  rw [hid, List.map_id]

theorem pairs_filter_str (l : List Nat) (g : Nat → Instance) (p : Instance → Bool) :
    ((l.map (fun i => (i, g i))).filter (fun q => p q.2)).map
        (fun q => toString q.1) =
      (l.filter (fun i => p (g i))).map (fun i => toString i) := by
  rw [filter_map_comm, List.map_map]
  rfl

theorem foldl_dictMapAt_eq_map (L : List Nat) (f : Instance → Instance) :
    ∀ (d : List (Nat × Instance)), L.Nodup →
      L.foldl (fun d j => dictMapAt d j f) d =
        d.map (fun p => if p.1 ∈ L then (p.1, f p.2) else p) := by
  induction L with
  | nil =>
    intro d _
    simp
  | cons j t ih =>
    intro d hnd
    rw [List.foldl_cons, ih (dictMapAt d j f) (List.nodup_cons.mp hnd).2]
    unfold dictMapAt
    rw [List.map_map]
    apply List.map_congr_left
    intro p _
    by_cases hj : p.1 = j
    · have hb : (p.1 == j) = true := by simp [hj]
      have hjt : j ∉ t := (List.nodup_cons.mp hnd).1
      simp only [Function.comp, hb, if_true]
      rw [if_neg (by simpa [hj] using hjt), if_pos (by simp [hj])]
    · have hb : (p.1 == j) = false := by simp [hj]
      simp only [Function.comp, hb, Bool.false_eq_true, if_false]
      by_cases ht : p.1 ∈ t
      · rw [if_pos ht, if_pos (List.mem_cons_of_mem j ht)]
      · rw [if_neg ht, if_neg (by
          intro hmem
          rcases List.mem_cons.mp hmem with h1 | h2
          · exact hj h1
          · exact ht h2)]

theorem isEmpty_map {α β : Type} (f : α → β) (l : List α) :
    (l.map f).isEmpty = l.isEmpty := by
  cases l <;> rfl

theorem getIndices_set_instances (sc : Scorer) (x : List (Nat × Instance)) :
    ({ sc with instances := x } : Scorer).getIndices = sc.getIndices := rfl

theorem instD_foldl_dictMapAt (sc : Scorer) (L : List Nat) (hnd : L.Nodup)
    (f : Instance → Instance) (i : Nat) (h : (sc.instances.lookup i).isSome) :
    (L.foldl (fun d j => dictMapAt d j f) sc.instances).lookup i =
      some (if i ∈ L then f (instD sc i) else instD sc i) := by
  rw [lookup_foldl_dictMapAt L f sc.instances i hnd]
  cases hl : sc.instances.lookup i with
  | none => rw [hl] at h; cases h
  | some v =>
    unfold instD
    rw [hl]
    by_cases hm : i ∈ L
    · rw [if_pos hm, if_pos hm]
      rfl
    · rw [if_neg hm, if_neg hm]
      rfl

theorem getTranslationList_closed (sentEval : Instance → Instance) (sc : Scorer)
    (hcov : ∀ i ∈ sc.getIndices, (sc.instances.lookup i).isSome) :
    getTranslationList sentEval sc =
      Except.ok
        ({ sc with instances := sc.instances.map (fun p =>
             if p.1 ∈ sc.getIndices.filter (fun i => !(instD sc i).finish_prediction)
             then (p.1, sentEval p.2) else p) },
         ((if (sc.getIndices.filter
                (fun i => !(instD sc i).finish_prediction)).isEmpty
           then [] else
             ["Warning: these hypothesis don't have EOS in predictions",
              String.intercalate ", "
                ((sc.getIndices.filter
                   (fun i => !(instD sc i).finish_prediction)).map
                  (fun i => toString i))]) ++
          (if (sc.getIndices.filter
                (fun i => (instD sc i).prediction.length == 0)).isEmpty
           then [] else
             ["Warning: these hypothesis are empty",
              String.intercalate ", "
                ((sc.getIndices.filter
                   (fun i => (instD sc i).prediction.length == 0)).map
                  (fun i => toString i))])),
         sc.getIndices.filter (fun i => !(instD sc i).finish_prediction),
         sc.getIndices.map (fun i =>
           if i ∈ sc.getIndices.filter (fun j => !(instD sc j).finish_prediction)
           then (sentEval (instD sc i)).prediction
           else (instD sc i).prediction)) := by
  have hndI : sc.getIndices.Nodup := List.nodup_range' _ _
  have hndL : (sc.getIndices.filter
      (fun i => !(instD sc i).finish_prediction)).Nodup := hndI.filter _
  unfold getTranslationList
  rw [mapM_pairs_ok sc hcov]
  have hfst : ((sc.getIndices.map (fun i => (i, instD sc i))).filter
      (fun q => !q.2.finish_prediction)).map Prod.fst =
      sc.getIndices.filter (fun i => !(instD sc i).finish_prediction) :=
    pairs_filter_fst sc.getIndices (fun i => instD sc i)
      (fun v => !v.finish_prediction)
  have hstr : ((sc.getIndices.map (fun i => (i, instD sc i))).filter
      (fun q => q.2.prediction.length == 0)).map (fun q => toString q.1) =
      (sc.getIndices.filter (fun i => (instD sc i).prediction.length == 0)).map
        (fun i => toString i) :=
    pairs_filter_str sc.getIndices (fun i => instD sc i)
      (fun v => v.prediction.length == 0)
  simp only [hfst, hstr]
  have htr : (({ sc with instances :=
        ((sc.getIndices.filter (fun i => !(instD sc i).finish_prediction)).foldl
          (fun d idx => dictMapAt d idx sentEval) sc.instances) } : Scorer).getIndices).mapM
      (fun i =>
        (instE { sc with instances :=
          ((sc.getIndices.filter (fun i => !(instD sc i).finish_prediction)).foldl
            (fun d idx => dictMapAt d idx sentEval) sc.instances) } i).map
        (fun v => v.prediction)) =
      Except.ok (sc.getIndices.map (fun i =>
        if i ∈ sc.getIndices.filter (fun j => !(instD sc j).finish_prediction)
        then (sentEval (instD sc i)).prediction
        else (instD sc i).prediction)) := by
    apply mapM_ok_of_forall
    intro i hi
    unfold instE
    simp only []
    rw [instD_foldl_dictMapAt sc _ hndL sentEval i (hcov i hi)]
    by_cases hm : i ∈ sc.getIndices.filter (fun j => !(instD sc j).finish_prediction)
    · rw [if_pos hm, if_pos hm]
      rfl
    · rw [if_neg hm, if_neg hm]
      rfl
  rw [htr]
  rw [foldl_dictMapAt_eq_map _ sentEval sc.instances hndL]
  rw [isEmpty_map]

/-! ## Claim C7: forcing terminal evaluation of unfinished instances -/

/-- C7: for every text shard whose store covers its index range,
`get_translation_list` returns without raising; the list of indices on which
`sentence_level_eval` is invoked is exactly the list of indices whose
instance has `finish_prediction = false` — a duplicate-free list, so each
such instance is evaluated exactly once; a diagnostic warning line naming
each such index (comma-separated) is recorded; and the returned translation
list still contains every instance's (possibly just-updated) prediction in
index order, including empty predictions, which are diagnosed but not
excluded. -/
theorem C7_force_eval_and_warn (sentEval : Instance → Instance) (sc : Scorer)
    (hcov : ∀ i ∈ sc.getIndices, (sc.instances.lookup i).isSome) :
    (getTranslationList sentEval sc =
      Except.ok
        ({ sc with instances := sc.instances.map (fun p =>
             if p.1 ∈ sc.getIndices.filter (fun i => !(instD sc i).finish_prediction)
             then (p.1, sentEval p.2) else p) },
         ((if (sc.getIndices.filter
                (fun i => !(instD sc i).finish_prediction)).isEmpty
           then [] else
             ["Warning: these hypothesis don't have EOS in predictions",
              String.intercalate ", "
                ((sc.getIndices.filter
                   (fun i => !(instD sc i).finish_prediction)).map
                  (fun i => toString i))]) ++
          (if (sc.getIndices.filter
                (fun i => (instD sc i).prediction.length == 0)).isEmpty
           then [] else
             ["Warning: these hypothesis are empty",
              String.intercalate ", "
                ((sc.getIndices.filter
                   (fun i => (instD sc i).prediction.length == 0)).map
                  (fun i => toString i))])),
         sc.getIndices.filter (fun i => !(instD sc i).finish_prediction),
         sc.getIndices.map (fun i =>
           if i ∈ sc.getIndices.filter (fun j => !(instD sc j).finish_prediction)
           then (sentEval (instD sc i)).prediction
           else (instD sc i).prediction))) ∧
    (sc.getIndices.filter (fun i => !(instD sc i).finish_prediction)).Nodup :=
  ⟨getTranslationList_closed sentEval sc hcov,
   (List.nodup_range' _ _).filter _⟩

section
set_option allowUnsafeReducibility true
attribute [local semireducible] Rat.add Rat.mul Rat.inv Rat.sub Rat.div Rat.ofScientific

/-- Witness for `C7_force_eval_and_warn`: the three-instance shard in which
instance 2 is unfinished.  A warning naming index 2 is recorded,
`sentence_level_eval` runs exactly on index 2, and all three predictions are
returned in order. -/
theorem C7_witness :
    getTranslationList wEval wShard =
      Except.ok (⟨0, 3, [(0, qInst0), (1, qInst1), (2, wEval wInst2)]⟩,
        ["Warning: these hypothesis don't have EOS in predictions", "2"],
        [2], ["hyp zero", "hyp one", "part"]) ∧
    ([2] : List Nat).Nodup := by
  have h := C7_force_eval_and_warn wEval wShard (by decide)
  constructor
  · rw [h.1]
    decide
  · decide

end

/-! ## Claim C1: round trip through the instance log -/

theorem foldl_dictInsert_fresh (l : List (Nat × Instance)) :
    ∀ (acc : List (Nat × Instance)),
      (∀ p ∈ l, p.2.index = p.1) →
      (l.map Prod.fst).Nodup →
      (∀ k ∈ l.map Prod.fst, k ∉ acc.map Prod.fst) →
      (l.map Prod.snd).foldl (fun d inst => dictInsert d inst.index inst) acc =
        acc ++ l := by
  induction l with
  | nil =>
    intro acc _ _ _
    simp
  | cons p t ih =>
    intro acc hidx hnd hdisj
    rw [List.map_cons, List.foldl_cons]
    have hpidx : p.2.index = p.1 := hidx p (List.mem_cons_self p t)
    have hfresh : p.1 ∉ acc.map Prod.fst := hdisj p.1 (by simp)
    rw [hpidx, dictInsert_fresh hfresh]
    have hnd2 : (t.map Prod.fst).Nodup := (List.nodup_cons.mp hnd).2
    have hp1t : p.1 ∉ t.map Prod.fst := (List.nodup_cons.mp hnd).1
    rw [ih (acc ++ [(p.1, p.2)])
        (fun q hq => hidx q (List.mem_cons_of_mem p hq)) hnd2
        (by
          intro k hk
          rw [List.map_append]
          intro hmem
          rcases List.mem_append.mp hmem with h1 | h2
          · exact hdisj k (List.mem_cons_of_mem _ hk) h1
          · have hkp : k = p.1 := by simpa using h2
            subst hkp
            exact hp1t hk)]
    simp

/-- C1 (amended): the round trip through the instance log preserves the
scorer — and hence `score()` — for every shard whose `start_index` is 0 (as
`from_logdir` unconditionally resets `start_index` to 0 and `end_index` to
the number of stored instances, shards with nonzero `start_index` do not
survive the trip): for any store that lists exactly the indices `0..n-1` in
order, each instance recorded under its own index, replaying the written log
reconstructs the identical scorer, so every `score()` observable — for any
external quality metric and any `sentence_level_eval` — is identical as
well. -/
theorem C1_roundtrip_zero_start (sc : Scorer)
    (hs : sc.start_index = 0)
    (he : sc.end_index = sc.instances.length)
    (hk : sc.instances.map Prod.fst = List.range sc.instances.length)
    (hidx : ∀ p ∈ sc.instances, p.2.index = p.1)
    (hfin : ∀ p ∈ sc.instances, p.2.finish_prediction = true) :
    textFromLogdir (writeLog sc) = sc ∧
    ∀ (bleuFn : List String → List String → Rat)
      (sentEval : Instance → Instance),
      scoreText bleuFn sentEval (textFromLogdir (writeLog sc)) =
        scoreText bleuFn sentEval sc := by
  have hnd : (sc.instances.map Prod.fst).Nodup := by
    rw [hk]
    exact List.nodup_range _
  have hfold : (sc.instances.map Prod.snd).foldl
      (fun d inst => dictInsert d inst.index inst) [] = sc.instances := by
    have h := foldl_dictInsert_fresh sc.instances [] hidx hnd (by simp)
    simpa using h
  have hmain : textFromLogdir (writeLog sc) = sc := by
    unfold textFromLogdir writeLog
    simp only [hfold]
    obtain ⟨s, e, insts⟩ := sc
    simp only at hs he
    rw [hs, he]
  exact ⟨hmain, fun bleuFn sentEval => by rw [hmain]⟩

section
set_option allowUnsafeReducibility true
attribute [local semireducible] Rat.add Rat.mul Rat.inv Rat.sub Rat.div Rat.ofScientific

/-- C1 counterexample: the claim fails for shards whose `start_index` is
nonzero.  The live one-instance shard `[1, 2)` scores to a full report, but
`from_logdir` of its log resets the shard to `[0, 1)` while keying the store
by the original index 1, so the replayed `score()` raises `KeyError: 0`
instead of reproducing the live output — the shard semantics
(`start_index`/`end_index`) are not preserved. -/
theorem C1_counterexample :
    scoreText qBleu id shiftShard =
      Except.ok { quality := [("BLEU", 2)],
                  latency := [("AL", 1), ("AP", 1), ("DAL", 1)] } ∧
    scoreText qBleu id (textFromLogdir (writeLog shiftShard)) =
      Except.error "KeyError: 0" ∧
    (textFromLogdir (writeLog shiftShard)).start_index = 0 ∧
    (textFromLogdir (writeLog shiftShard)).end_index = 1 := by
  refine ⟨by decide, by decide, by decide, by decide⟩

/-- Witness for `C1_roundtrip_zero_start`: the one-instance shard `[0, 1)`
survives the round trip and scores identically. -/
theorem C1_witness :
    textFromLogdir (writeLog rtShard) = rtShard ∧
    scoreText qBleu id (textFromLogdir (writeLog rtShard)) =
      scoreText qBleu id rtShard :=
  ⟨(C1_roundtrip_zero_start rtShard (by decide) (by decide) (by decide)
      (by decide) (by decide)).1,
   (C1_roundtrip_zero_start rtShard (by decide) (by decide) (by decide)
      (by decide) (by decide)).2 qBleu id⟩

end

/-! ## Claim C5: the nested report on a fully completed text shard -/

theorem lookup_mem {l : List (Nat × Instance)} {k : Nat} {v : Instance}
    (h : l.lookup k = some v) : (k, v) ∈ l := by
  induction l with
  | nil => cases h
  | cons p t ih =>
    by_cases hk : k = p.1
    · rw [show p = (p.1, p.2) from rfl] at h
      rw [hk] at h
      rw [lookup_cons_self] at h
      injection h with hv
      subst hv
      rw [hk]
      exact List.mem_cons_self _ _
    · have hne : (k == p.1) = false := beq_eq_false_iff_ne.mpr hk
      rw [show p = (p.1, p.2) from rfl, lookup_cons_ne hne] at h
      exact List.mem_cons_of_mem _ (ih h)

theorem lookup_isSome_of_mem_keys {l : List (Nat × Instance)} {k : Nat}
    (h : k ∈ l.map Prod.fst) : (l.lookup k).isSome := by
  induction l with
  | nil => cases h
  | cons p t ih =>
    by_cases hk : k = p.1
    · rw [show p = (p.1, p.2) from rfl, hk, lookup_cons_self]
      rfl
    · have hne : (k == p.1) = false := beq_eq_false_iff_ne.mpr hk
      rw [show p = (p.1, p.2) from rfl, lookup_cons_ne hne]
      apply ih
      rcases List.mem_cons.mp h with h1 | h2
      · exact absurd h1 hk
      · exact h2

theorem instD_mem {sc : Scorer} {i : Nat}
    (h : i ∈ sc.instances.map Prod.fst) : (i, instD sc i) ∈ sc.instances := by
  have hsome := lookup_isSome_of_mem_keys h
  unfold instD
  cases hl : sc.instances.lookup i with
  | none => rw [hl] at hsome; cases hsome
  | some v =>
    exact lookup_mem hl

theorem lookup_keys_values (l : List (Nat × Instance)) :
    (l.map Prod.fst).Nodup →
      (l.map Prod.fst).map (fun k => (l.lookup k).getD default) =
        l.map Prod.snd := by
  induction l with
  | nil => intro _; rfl
  | cons p t ih =>
    intro hnd
    rw [List.map_cons, List.map_cons, List.map_cons]
    congr 1
    · rw [show p = (p.1, p.2) from rfl, lookup_cons_self]
      rfl
    · have hpt : p.1 ∉ t.map Prod.fst := (List.nodup_cons.mp hnd).1
      have hcongr : (t.map Prod.fst).map
          (fun k => (((p :: t).lookup k).getD default)) =
          (t.map Prod.fst).map (fun k => ((t.lookup k).getD default)) := by
        apply List.map_congr_left
        intro k hk
        have hne : (k == p.1) = false :=
          beq_eq_false_iff_ne.mpr (fun hkp => hpt (hkp ▸ hk))
        rw [show p = (p.1, p.2) from rfl, lookup_cons_ne hne]
      rw [hcongr, ih (List.nodup_cons.mp hnd).2]

theorem latRow_eval (sc : Scorer) (m : String)
    (hbase : ∀ v ∈ sc.values,
      metricVal v "latency" m = Except.ok (metricValD v "latency" m))
    (hca : commonHas sc "latency_ca" = true → ∀ v ∈ sc.values,
      metricVal v "latency_ca" m = Except.ok (metricValD v "latency_ca" m))
    (htime : commonHas sc "latency_text_w_time" = true → ∀ v ∈ sc.values,
      metricVal v "latency_text_w_time" m =
        Except.ok (metricValD v "latency_text_w_time" m)) :
    latRow sc m = Except.ok (latRowSpec sc m) := by
  unfold latRow caPartOf timePartOf latRowSpec
  rw [mapM_ok_of_forall hbase]
  by_cases hc : commonHas sc "latency_ca" <;>
    by_cases ht : commonHas sc "latency_text_w_time"
  · rw [if_pos hc, if_pos ht, if_pos hc, if_pos ht,
      mapM_ok_of_forall (hca hc), mapM_ok_of_forall (htime ht)]
  · rw [if_pos hc, if_neg ht, if_pos hc, if_neg ht,
      mapM_ok_of_forall (hca hc)]
  · rw [if_neg hc, if_pos ht, if_neg hc, if_pos ht,
      mapM_ok_of_forall (htime ht)]
  · rw [if_neg hc, if_neg ht, if_neg hc, if_neg ht]

theorem lookup_latRowSpec_head (sc : Scorer) (m : String)
    (rest : List (String × Rat)) :
    (latRowSpec sc m ++ rest).lookup m =
      some (mean (sc.values.map (fun v => metricValD v "latency" m))) := by
  unfold latRowSpec
  rw [List.cons_append, lookup_cons_self]

theorem lookup_latRowSpec_none (sc : Scorer) (m m' : String)
    (hne1 : (m' == m) = false) (hne2 : (m' == m ++ "_CA") = false)
    (hne3 : (m' == m ++ " (Time in ms)") = false)
    (rest : List (String × Rat)) :
    (latRowSpec sc m ++ rest).lookup m' = rest.lookup m' := by
  unfold latRowSpec
  rw [List.cons_append, lookup_cons_ne hne1]
  by_cases hc : commonHas sc "latency_ca" <;>
    by_cases ht : commonHas sc "latency_text_w_time" <;>
      simp only [hc, ht, if_true, Bool.false_eq_true, if_false,
        List.nil_append, List.cons_append, List.append_nil] <;>
      simp [List.lookup, hne2, hne3]

/-- C5: for every text shard whose store lists exactly its index range, with
every instance complete, every prediction non-empty, and well-formed metric
families (each present family carries AL/AP/DAL), `score()` returns a report
whose `Quality` entry holds the single scalar `BLEU`, computed by one call of
the external corpus-level metric on the full ordered translation and
reference lists, and whose `Latency` entry holds, for each of AL, AP and
DAL, the unweighted arithmetic mean of the instances' own values — every
instance contributing equally, with `source_length` playing no role. -/
theorem C5_quality_and_mean_latency
    (bleuFn : List String → List String → Rat) (sentEval : Instance → Instance)
    (sc : Scorer)
    (hne : sc.instances ≠ [])
    (hkeys : sc.instances.map Prod.fst = sc.getIndices)
    (hfin : ∀ p ∈ sc.instances, p.2.finish_prediction = true)
    (hpred : ∀ p ∈ sc.instances, p.2.prediction ≠ "")
    (hwf : ∀ v ∈ sc.values,
      ∀ fam ∈ (["latency", "latency_ca", "latency_text_w_time"] : List String),
      hasFamily v fam = true →
      ∀ m ∈ (["AL", "AP", "DAL"] : List String),
        metricVal v fam m = Except.ok (metricValD v fam m))
    (hbase : ∀ v ∈ sc.values, hasFamily v "latency" = true) :
    scoreText bleuFn sentEval sc = Except.ok
      { quality := [("BLEU",
          bleuFn (sc.values.map (fun v => v.prediction))
                 (sc.values.map (fun v => v.reference)))],
        latency := latRowSpec sc "AL" ++ latRowSpec sc "AP" ++
          latRowSpec sc "DAL" } ∧
    (latRowSpec sc "AL" ++ latRowSpec sc "AP" ++
      latRowSpec sc "DAL").lookup "AL" =
      some (mean (sc.values.map (fun v => metricValD v "latency" "AL"))) ∧
    (latRowSpec sc "AL" ++ latRowSpec sc "AP" ++
      latRowSpec sc "DAL").lookup "AP" =
      some (mean (sc.values.map (fun v => metricValD v "latency" "AP"))) ∧
    (latRowSpec sc "AL" ++ latRowSpec sc "AP" ++
      latRowSpec sc "DAL").lookup "DAL" =
      some (mean (sc.values.map (fun v => metricValD v "latency" "DAL"))) := by
  have hcov : ∀ i ∈ sc.getIndices, (sc.instances.lookup i).isSome := by
    intro i hi
    apply lookup_isSome_of_mem_keys
    rw [hkeys]
    exact hi
  have hkmem : ∀ i ∈ sc.getIndices, i ∈ sc.instances.map Prod.fst := by
    intro i hi
    rw [hkeys]
    exact hi
  have hLnil : sc.getIndices.filter
      (fun i => !(instD sc i).finish_prediction) = [] := by
    rw [List.filter_eq_nil_iff]
    intro i hi
    have hmem := instD_mem (hkmem i hi)
    have hf : (instD sc i).finish_prediction = true := hfin _ hmem
    simp [hf]
  have hEnil : sc.getIndices.filter
      (fun i => (instD sc i).prediction.length == 0) = [] := by
    rw [List.filter_eq_nil_iff]
    intro i hi
    have hmem := instD_mem (hkmem i hi)
    have hp := hpred _ hmem
    intro hcontra
    have h0 : (instD sc i).prediction.length = 0 := by simpa using hcontra
    have hpos := (string_length_pos_iff (instD sc i).prediction).mpr hp
    omega
  have hval : sc.getIndices.map (fun i => instD sc i) = sc.values := by
    have h := lookup_keys_values sc.instances
      (by rw [hkeys]; exact List.nodup_range' _ _)
    rw [hkeys] at h
    exact h
  have hgtl2 : getTranslationList sentEval sc =
      Except.ok (sc, ([] : List String), ([] : List Nat),
        sc.values.map (fun v => v.prediction)) := by
    rw [getTranslationList_closed sentEval sc hcov, hLnil, hEnil]
    simp only [List.isEmpty_nil, if_true, List.not_mem_nil, if_false,
      List.append_nil, List.nil_append]
    rw [← hval, List.map_map, List.map_id']
    rfl
  have href : getReferenceList sc =
      Except.ok (sc.values.map (fun v => v.reference)) := by
    unfold getReferenceList
    rw [mapM_ok_of_forall (g := fun i => (instD sc i).reference)
      (fun i hi => by rw [instE_ok_of_isSome (hcov i hi)]; rfl)]
    rw [← hval, List.map_map]
    rfl
  have hbaseE : ∀ m ∈ (["AL", "AP", "DAL"] : List String), ∀ v ∈ sc.values,
      metricVal v "latency" m = Except.ok (metricValD v "latency" m) :=
    fun m hm v hv => hwf v hv "latency" (by decide) (hbase v hv) m hm
  have hcaE : ∀ m ∈ (["AL", "AP", "DAL"] : List String),
      commonHas sc "latency_ca" = true → ∀ v ∈ sc.values,
      metricVal v "latency_ca" m = Except.ok (metricValD v "latency_ca" m) := by
    intro m hm hc v hv
    have hfam : hasFamily v "latency_ca" = true := by
      unfold commonHas at hc
      exact List.all_eq_true.mp hc v hv
    exact hwf v hv "latency_ca" (by decide) hfam m hm
  have htimeE : ∀ m ∈ (["AL", "AP", "DAL"] : List String),
      commonHas sc "latency_text_w_time" = true → ∀ v ∈ sc.values,
      metricVal v "latency_text_w_time" m =
        Except.ok (metricValD v "latency_text_w_time" m) := by
    intro m hm hc v hv
    have hfam : hasFamily v "latency_text_w_time" = true := by
      unfold commonHas at hc
      exact List.all_eq_true.mp hc v hv
    exact hwf v hv "latency_text_w_time" (by decide) hfam m hm
  have hlat : getLatencyScore sc = Except.ok
      (latRowSpec sc "AL" ++ latRowSpec sc "AP" ++ latRowSpec sc "DAL") := by
    have hAL := latRow_eval sc "AL" (hbaseE "AL" (by decide))
      (hcaE "AL" (by decide)) (htimeE "AL" (by decide))
    have hAP := latRow_eval sc "AP" (hbaseE "AP" (by decide))
      (hcaE "AP" (by decide)) (htimeE "AP" (by decide))
    have hDAL := latRow_eval sc "DAL" (hbaseE "DAL" (by decide))
      (hcaE "DAL" (by decide)) (htimeE "DAL" (by decide))
    unfold getLatencyScore
    rw [if_neg (by simpa using hne), hAL, hAP, hDAL]
  refine ⟨?_, ?_, ?_, ?_⟩
  · unfold scoreText
    rw [hgtl2]
    simp only []
    rw [href]
    simp only []
    rw [hlat]
  · rw [List.append_assoc, lookup_latRowSpec_head]
  · rw [List.append_assoc,
      lookup_latRowSpec_none sc "AL" "AP" (by decide) (by decide) (by decide),
      lookup_latRowSpec_head]
  · rw [List.append_assoc,
      lookup_latRowSpec_none sc "AL" "DAL" (by decide) (by decide) (by decide),
      lookup_latRowSpec_none sc "AP" "DAL" (by decide) (by decide) (by decide)]
    unfold latRowSpec
    rw [lookup_cons_self]

section
set_option allowUnsafeReducibility true
attribute [local semireducible] Rat.add Rat.mul Rat.inv Rat.sub Rat.div Rat.ofScientific

/-- Witness for `C5_quality_and_mean_latency`: the three-instance scenario
shard, all complete with non-empty predictions. -/
theorem C5_witness :
    scoreText qBleu id qShard = Except.ok
      { quality := [("BLEU", qBleu (qShard.values.map (fun v => v.prediction))
          (qShard.values.map (fun v => v.reference)))],
        latency := latRowSpec qShard "AL" ++ latRowSpec qShard "AP" ++
          latRowSpec qShard "DAL" } ∧
    (latRowSpec qShard "AL" ++ latRowSpec qShard "AP" ++
      latRowSpec qShard "DAL").lookup "AL" =
      some (mean (qShard.values.map (fun v => metricValD v "latency" "AL"))) ∧
    (latRowSpec qShard "AL" ++ latRowSpec qShard "AP" ++
      latRowSpec qShard "DAL").lookup "AP" =
      some (mean (qShard.values.map (fun v => metricValD v "latency" "AP"))) ∧
    (latRowSpec qShard "AL" ++ latRowSpec qShard "AP" ++
      latRowSpec qShard "DAL").lookup "DAL" =
      some (mean (qShard.values.map (fun v => metricValD v "latency" "DAL"))) :=
  C5_quality_and_mean_latency qBleu id qShard (by decide) (by decide)
    (by decide) (by decide) (by decide) (by decide)

end
